import Mathlib

/-!
A verification model of the `ho` Bayesian hyperparameter-optimization
library (Go).  Source files modelled: `utils.go` (Gaussian-process
surrogate), `acquisitionfunction.go` (acquisition strategies), `ho.go`
(the two-phase optimization driver).

Modelling conventions:
* `float64` values are modelled as real numbers (`ℝ`); float arithmetic
  is modelled exactly, as real arithmetic.
* Random draws (`rng.Int63n`, `rng.Float64`, `NormFloat64`) are supplied
  as explicit oracle inputs, constrained to the ranges the Go generator
  guarantees.
* Go slices are modelled as lists; Go's `copy(dst, src)` is modelled by
  `goCopy`, which keeps the length of `dst`.
* A Go function that can only fail by a nil-pointer dereference is given
  an explicit outcome type recording that fault.
-/

noncomputable section

namespace HO

/-- The Gaussian-process surrogate state (`gaussianProcess` in `utils.go`):
observed input points `X`, observed costs `Y`, and the kernel width `sigma`.
The mutex is irrelevant to the sequential model. -/
structure GP where
  X : List (List ℝ)
  Y : List ℝ
  sigma : ℝ

/-- `newGaussianProcess` from `utils.go`: empty observation lists,
`sigma = 1.0`. -/
def newGaussianProcess : GP :=
  { X := [], Y := [], sigma := 1 }

/-- `RBFKernel` from `utils.go`:
`exp(-Σ (x1[i]-x2[i])*(x1[i]-x2[i]) / (2*sigma*sigma))`.
The Go code panics when the lengths differ; theorems about this
definition therefore carry the precondition `x1.length = x2.length`,
on which domain the `zipWith` matches the Go loop exactly. -/
def RBFKernel (gp : GP) (x1 x2 : List ℝ) : ℝ :=
  Real.exp (-((List.zipWith (fun a b => (a - b) * (a - b)) x1 x2).sum) /
    (2 * gp.sigma * gp.sigma))

/-- `Predict` from `utils.go`.  With no observations returns `(0, 1)`.
Otherwise `k[i] = RBFKernel(x, X[i])`,
`mean = (Σ k[i]*Y[i]) / n`, and `variance` starts at `1.0` and has every
`k[i]*k[j]/n` subtracted (the nested loops). -/
def Predict (gp : GP) (x : List ℝ) : ℝ × ℝ :=
  if gp.X.length = 0 then (0, 1)
  else
    let k := gp.X.map (fun xi => RBFKernel gp x xi)
    let n : ℝ := (gp.X.length : ℝ)
    let mean := (List.zipWith (fun ki yi => ki * yi) k gp.Y).sum / n
    let variance := 1 - ((k.map (fun ki => (k.map (fun kj => ki * kj / n)).sum)).sum)
    (mean, variance)

/-- `Update` from `utils.go`: append a copy of the point and its cost. -/
def Update (gp : GP) (x : List ℝ) (y : ℝ) : GP :=
  { gp with X := gp.X ++ [x], Y := gp.Y ++ [y] }

/-- The state of the `*rand.Rand` generator, reduced to the one draw the
modelled code consumes from it (`NormFloat64`). -/
structure RandState where
  NormFloat64 : ℝ

/-- `AcquisitionParams` from `types.go`.  `RandomState` is a Go pointer,
modelled as an `Option`: `none` is a nil pointer. -/
structure AcquisitionParams where
  Beta : ℝ
  Xi : ℝ
  BestSoFar : ℝ
  RandomState : Option RandState

/-- `UCB` from `acquisitionfunction.go`: `mean - Beta*sqrt(variance)`. -/
def UCB (mean variance : ℝ) (params : AcquisitionParams) : ℝ :=
  mean - params.Beta * Real.sqrt variance

/-- Outcome of calling the Go `ThompsonSampling` function.  The Go
signature returns a bare `float64`; the only non-`ok` behaviour the code
can produce is an implicit runtime fault (nil-pointer dereference).
`explicitError` represents the spec's alternative of a fail-fast explicit
error return, which the signature would need to produce for the spec's
error-handling sentence to hold. -/
inductive TSOutcome where
  | ok (x : ℝ)
  | explicitError
  | implicitFault

/-- `ThompsonSampling` from `acquisitionfunction.go`:
`mean + sqrt(variance) * params.RandomState.NormFloat64()`.
Calling `NormFloat64` through a nil `RandomState` pointer is a runtime
nil-pointer dereference, modelled as `implicitFault`. -/
def ThompsonSampling (mean variance : ℝ) (params : AcquisitionParams) : TSOutcome :=
  match params.RandomState with
  | none => TSOutcome.implicitFault
  | some rs => TSOutcome.ok (mean + Real.sqrt variance * rs.NormFloat64)

/-- The exact value of Go's `math.MaxFloat64`, `2^1024 - 2^971`. -/
def maxFloat64 : ℝ := 2 ^ 1024 - 2 ^ 971

/-- One invocation of the benchmark function, as observed by the driver:
whether it returned a non-nil error, and the measured duration in
nanoseconds (`time.Since(startTime).Nanoseconds()`). -/
structure EvalResult where
  failed : Bool
  duration : ℝ

/-- The cost the driver records for an evaluation (`ho.go`): the measured
duration, replaced by `math.MaxFloat64/2 + executionTime` when the
benchmark returned an error. -/
def recordedCost (r : EvalResult) : ℝ :=
  if r.failed then maxFloat64 / 2 + r.duration else r.duration

/-- Go's `copy(dst, src)`: overwrite the first `min(len dst, len src)`
elements of `dst` with those of `src`, keep the rest of `dst`.  The
result always has the length of `dst`. -/
def goCopy {α : Type} (dst src : List α) : List α :=
  src.take dst.length ++ dst.drop src.length

/-- The best-so-far cell of the driver (`bestParams`, `bestTime` in
`ho.go`), generic in the parameter type `T`. -/
structure BestState (T : Type) where
  bestParams : List T
  bestTime : ℝ

/-- `updateBest` from `ho.go`: under the lock, if
`executionTime < bestTime` then `bestTime = executionTime` and
`copy(bestParams, params)`; otherwise unchanged. -/
def updateBest {T : Type} (st : BestState T) (params : List T)
    (executionTime : ℝ) : BestState T :=
  if executionTime < st.bestTime then
    { bestParams := goCopy st.bestParams params, bestTime := executionTime }
  else st

/-- The driver's mutable state: the surrogate and the best-so-far cell. -/
structure DriverState (T : Type) where
  gp : GP
  best : BestState T

/-- One objective evaluation step shared by both phases of
`OptimizeHyperparameters`: record the cost (with the failure penalty) in
the surrogate, and offer it to the best-so-far cell.  `toF` is
`paramsToFloat64s` (the per-element `float64(v)` conversion). -/
def evalStep {T : Type} (toF : T → ℝ) (st : DriverState T)
    (params : List T) (r : EvalResult) : DriverState T :=
  { gp := Update st.gp (params.map toF) (recordedCost r),
    best := updateBest st.best params (recordedCost r) }

/-- Phase 1 of `OptimizeHyperparameters` (initial random sampling):
fold `evalStep` over the oracle-supplied random draws and their
evaluation results. -/
def phaseA {T : Type} (toF : T → ℝ) (st : DriverState T)
    (draws : List (List T × EvalResult)) : DriverState T :=
  draws.foldl (fun s pr => evalStep toF s pr.1 pr.2) st

/-- The candidate-selection loop of Phase 2 (`ho.go`): starting from
`bestAcquisition = math.MaxFloat64` and `nextParams = nil`, each
candidate replaces the incumbent exactly when its acquisition score is
strictly smaller than the incumbent score. -/
def selectLoop {α : Type} (score : α → ℝ) (init : ℝ × Option α)
    (cands : List α) : ℝ × Option α :=
  cands.foldl (fun acc c =>
    let acquisition := score c
    if acquisition < acc.1 then (acquisition, some c) else acc) init

/-- The acquisition score Phase 2 gives a candidate: the configured
acquisition function applied to the surrogate's prediction at the
candidate, with `BestSoFar` refreshed to the current best cost. -/
def phaseBScore {T : Type} (toF : T → ℝ)
    (acqF : ℝ → ℝ → AcquisitionParams → ℝ) (acqP : AcquisitionParams)
    (st : DriverState T) (c : List T) : ℝ :=
  let p := Predict st.gp (c.map toF)
  acqF p.1 p.2 { acqP with BestSoFar := st.best.bestTime }

/-- The candidate Phase 2 evaluates: the winner of `selectLoop` over the
drawn candidates (`none` models Go's nil `nextParams` when no candidate
scored below the sentinel). -/
def phaseBSelect {T : Type} (toF : T → ℝ)
    (acqF : ℝ → ℝ → AcquisitionParams → ℝ) (acqP : AcquisitionParams)
    (st : DriverState T) (cands : List (List T)) : Option (List T) :=
  (selectLoop (phaseBScore toF acqF acqP st) (maxFloat64, none) cands).2

/-- One Phase 2 iteration: select among the drawn candidates, then
evaluate the objective once on the winner (Go calls
`benchmarkFunc(nextParams...)`, where a nil `nextParams` is the empty
parameter list). -/
def phaseBRound {T : Type} (toF : T → ℝ)
    (acqF : ℝ → ℝ → AcquisitionParams → ℝ) (acqP : AcquisitionParams)
    (st : DriverState T) (round : List (List T) × EvalResult) : DriverState T :=
  evalStep toF st ((phaseBSelect toF acqF acqP st round.1).getD []) round.2

/-- Phase 2 of `OptimizeHyperparameters`: fold the per-iteration round
over the oracle-supplied candidate draws and evaluation results. -/
def phaseB {T : Type} (toF : T → ℝ)
    (acqF : ℝ → ℝ → AcquisitionParams → ℝ) (acqP : AcquisitionParams)
    (st : DriverState T) (rounds : List (List (List T) × EvalResult)) :
    DriverState T :=
  rounds.foldl (fun s rd => phaseBRound toF acqF acqP s rd) st

/-- The random draws and evaluation results consumed by one run. -/
structure RunOracle (T : Type) where
  phaseADraws : List (List T × EvalResult)
  phaseBRounds : List (List (List T) × EvalResult)

/-- `OptimizeHyperparameters` from `ho.go`, with randomness and the
benchmark externalized into `oracle`.  `d` is the number of declared
parameter ranges; `zeroT` is the zero value of `T`
(`bestParams := make([]T, len(hypers))`); the initial best cost is
`math.MaxFloat64`.  Returns the final best parameter vector. -/
def OptimizeHyperparameters {T : Type} (toF : T → ℝ) (zeroT : T)
    (acqF : ℝ → ℝ → AcquisitionParams → ℝ) (acqP : AcquisitionParams)
    (d : ℕ) (oracle : RunOracle T) : List T :=
  let st0 : DriverState T :=
    { gp := newGaussianProcess,
      best := { bestParams := List.replicate d zeroT, bestTime := maxFloat64 } }
  let st1 := phaseA toF st0 oracle.phaseADraws
  let st2 := phaseB toF acqF acqP st1 oracle.phaseBRounds
  st2.best.bestParams

/-- The element types Go's `switch any(hyper.Min).(type)` in
`safeRandomParams` can see: every type admitted by
`constraints.Integer | constraints.Float`. -/
inductive GoNumType where
  | goInt | goInt8 | goInt16 | goInt32 | goInt64
  | goUint | goUint8 | goUint16 | goUint32 | goUint64 | goUintptr
  | goFloat32 | goFloat64
  deriving DecidableEq

/-- Which element types the `switch` in `safeRandomParams` actually
handles: `int, int32, int64` (first case) and `float32, float64`
(second case). -/
def handledBySwitch : GoNumType → Bool
  | .goInt | .goInt32 | .goInt64 | .goFloat32 | .goFloat64 => true
  | _ => false

/-- One dimension of `safeRandomParams` (`ho.go`).  `r` models
`rng.Int63n(max-min+1)` and `u` models `rng.Float64()`.  Integer types
get `min + r`; float types get `min + u*(max-min)`; any other admitted
type matches no case, so the slot keeps the zero value `make` gave it. -/
def sampleParam (t : GoNumType) (minV maxV : ℝ) (r u : ℝ) : ℝ :=
  match t with
  | .goInt | .goInt32 | .goInt64 => minV + r
  | .goFloat32 | .goFloat64 => minV + u * (maxV - minV)
  | _ => 0

/-- `safeRandomParams` over a whole range list: one `(r, u)` oracle pair
per dimension. -/
def safeRandomParams (t : GoNumType) (hypers : List (ℝ × ℝ))
    (draws : List (ℝ × ℝ)) : List ℝ :=
  (List.zip hypers draws).map (fun pr => sampleParam t pr.1.1 pr.1.2 pr.2.1 pr.2.2)

/-- Reachability of a value in one integer dimension: some admissible
`Int63n(max-min+1)` draw `r` (an integer in `[0, max-min+1)`) yields it. -/
def canDrawInt (minV maxV v : ℤ) : Prop :=
  ∃ r : ℤ, 0 ≤ r ∧ r < maxV - minV + 1 ∧ minV + r = v

/-- Reachability of a value in one continuous dimension: some admissible
`Float64()` draw `u ∈ [0, 1)` yields it via `min + u*(max-min)`. -/
def canDrawFloat (minV maxV v : ℝ) : Prop :=
  ∃ u : ℝ, 0 ≤ u ∧ u < 1 ∧ minV + u * (maxV - minV) = v

/-! ## Helper lemmas -/

lemma sum_map_div {α : Type} (l : List α) (f : α → ℝ) (c : ℝ) :
    (l.map (fun x => f x / c)).sum = (l.map f).sum / c := by
  induction l with
  | nil => simp
  | cons a t ih => simp [ih, add_div]

lemma zipWith_mulself_sum_nonneg (a : List ℝ) :
    ∀ b : List ℝ, 0 ≤ (List.zipWith (fun p q => (p - q) * (p - q)) a b).sum := by
  induction a with
  | nil => intro b; simp
  | cons x t ih =>
    intro b
    cases b with
    | nil => simp
    | cons y s => simpa using add_nonneg (mul_self_nonneg (x - y)) (ih s)

lemma zipWith_mulself_sum_same (a : List ℝ) :
    (List.zipWith (fun p q => (p - q) * (p - q)) a a).sum = 0 := by
  induction a with
  | nil => simp
  | cons x t ih => simp [ih]

lemma maxFloat64_pos : 0 < maxFloat64 := by
  have h : (2 : ℝ) ^ 971 < 2 ^ 1024 := by
    exact pow_lt_pow_right₀ one_lt_two (by norm_num)
  simpa [maxFloat64] using sub_pos.mpr h

lemma goCopy_length {α : Type} (dst src : List α) :
    (goCopy dst src).length = dst.length := by
  simp [goCopy]
  omega

lemma updateBest_bestTime_le {T : Type} (st : BestState T) (p : List T) (t : ℝ) :
    (updateBest st p t).bestTime ≤ st.bestTime := by
  by_cases h : t < st.bestTime
  · rw [updateBest, if_pos h]; exact h.le
  · rw [updateBest, if_neg h]

lemma updateBest_length {T : Type} (st : BestState T) (p : List T) (t : ℝ) :
    (updateBest st p t).bestParams.length = st.bestParams.length := by
  by_cases h : t < st.bestTime
  · rw [updateBest, if_pos h]; exact goCopy_length _ _
  · rw [updateBest, if_neg h]

lemma foldl_updateBest_le {T : Type} (evals : List (List T × ℝ)) :
    ∀ st : BestState T,
      (evals.foldl (fun s pr => updateBest s pr.1 pr.2) st).bestTime ≤ st.bestTime := by
  induction evals with
  | nil => intro st; simp
  | cons e rest ih =>
    intro st
    exact le_trans (ih (updateBest st e.1 e.2)) (updateBest_bestTime_le st e.1 e.2)

lemma evalStep_bestTime_le {T : Type} (toF : T → ℝ) (st : DriverState T)
    (params : List T) (r : EvalResult) :
    (evalStep toF st params r).best.bestTime ≤ st.best.bestTime := by
  simpa [evalStep] using updateBest_bestTime_le st.best params (recordedCost r)

lemma evalStep_length {T : Type} (toF : T → ℝ) (st : DriverState T)
    (params : List T) (r : EvalResult) :
    (evalStep toF st params r).best.bestParams.length = st.best.bestParams.length := by
  simpa [evalStep] using updateBest_length st.best params (recordedCost r)

lemma phaseA_bestTime_le {T : Type} (toF : T → ℝ)
    (draws : List (List T × EvalResult)) :
    ∀ st : DriverState T, (phaseA toF st draws).best.bestTime ≤ st.best.bestTime := by
  induction draws with
  | nil => intro st; simp [phaseA]
  | cons dr rest ih =>
    intro st
    have h1 := ih (evalStep toF st dr.1 dr.2)
    have h2 := evalStep_bestTime_le toF st dr.1 dr.2
    simpa [phaseA] using le_trans h1 h2

lemma phaseA_length {T : Type} (toF : T → ℝ)
    (draws : List (List T × EvalResult)) :
    ∀ st : DriverState T,
      (phaseA toF st draws).best.bestParams.length = st.best.bestParams.length := by
  induction draws with
  | nil => intro st; simp [phaseA]
  | cons dr rest ih =>
    intro st
    have h1 := ih (evalStep toF st dr.1 dr.2)
    have h2 := evalStep_length toF st dr.1 dr.2
    simpa [phaseA] using h1.trans h2

lemma phaseBRound_bestTime_le {T : Type} (toF : T → ℝ)
    (acqF : ℝ → ℝ → AcquisitionParams → ℝ) (acqP : AcquisitionParams)
    (st : DriverState T) (round : List (List T) × EvalResult) :
    (phaseBRound toF acqF acqP st round).best.bestTime ≤ st.best.bestTime := by
  simpa [phaseBRound] using
    evalStep_bestTime_le toF st ((phaseBSelect toF acqF acqP st round.1).getD []) round.2

lemma phaseBRound_length {T : Type} (toF : T → ℝ)
    (acqF : ℝ → ℝ → AcquisitionParams → ℝ) (acqP : AcquisitionParams)
    (st : DriverState T) (round : List (List T) × EvalResult) :
    (phaseBRound toF acqF acqP st round).best.bestParams.length =
      st.best.bestParams.length := by
  simpa [phaseBRound] using
    evalStep_length toF st ((phaseBSelect toF acqF acqP st round.1).getD []) round.2

lemma phaseB_bestTime_le {T : Type} (toF : T → ℝ)
    (acqF : ℝ → ℝ → AcquisitionParams → ℝ) (acqP : AcquisitionParams)
    (rounds : List (List (List T) × EvalResult)) :
    ∀ st : DriverState T,
      (phaseB toF acqF acqP st rounds).best.bestTime ≤ st.best.bestTime := by
  induction rounds with
  | nil => intro st; simp [phaseB]
  | cons rd rest ih =>
    intro st
    have h1 := ih (phaseBRound toF acqF acqP st rd)
    have h2 := phaseBRound_bestTime_le toF acqF acqP st rd
    simpa [phaseB] using le_trans h1 h2

lemma phaseB_length {T : Type} (toF : T → ℝ)
    (acqF : ℝ → ℝ → AcquisitionParams → ℝ) (acqP : AcquisitionParams)
    (rounds : List (List (List T) × EvalResult)) :
    ∀ st : DriverState T,
      (phaseB toF acqF acqP st rounds).best.bestParams.length =
        st.best.bestParams.length := by
  induction rounds with
  | nil => intro st; simp [phaseB]
  | cons rd rest ih =>
    intro st
    have h1 := ih (phaseBRound toF acqF acqP st rd)
    have h2 := phaseBRound_length toF acqF acqP st rd
    simpa [phaseB] using h1.trans h2

lemma selectLoop_stay {α : Type} (score : α → ℝ) (b : ℝ) (p : Option α) :
    ∀ cands : List α, (∀ c ∈ cands, ¬ score c < b) →
      selectLoop score (b, p) cands = (b, p) := by
  intro cands
  induction cands with
  | nil => intro _; rfl
  | cons c rest ih =>
    intro h
    have hc := h c (List.mem_cons_self c rest)
    have hstep : selectLoop score (b, p) (c :: rest) =
        selectLoop score (b, p) rest := by
      simp [selectLoop, if_neg hc]
    rw [hstep]
    exact ih (fun x hx => h x (List.mem_cons_of_mem c hx))

lemma selectLoop_first_argmin {α : Type} (score : α → ℝ) :
    ∀ (cands : List α) (b : ℝ) (p : Option α),
      (∃ c ∈ cands, score c < b) →
      ∃ l₁ c₀ l₂, cands = l₁ ++ c₀ :: l₂ ∧
        selectLoop score (b, p) cands = (score c₀, some c₀) ∧
        score c₀ < b ∧
        (∀ c ∈ cands, score c₀ ≤ score c) ∧
        (∀ c ∈ l₁, score c₀ < score c) := by
  intro cands
  induction cands with
  | nil => intro b p h; simp at h
  | cons c rest ih =>
    intro b p h
    have hstep : ∀ q : ℝ × Option α, selectLoop score q (c :: rest) =
        selectLoop score (if score c < q.1 then (score c, some c) else q) rest := by
      intro q
      by_cases hc : score c < q.1 <;> simp [selectLoop, hc]
    by_cases hc : score c < b
    · by_cases hrest : ∃ x ∈ rest, score x < score c
      · obtain ⟨l₁, c₀, l₂, heq, hsel, hlt, hmin, hfirst⟩ := ih (score c) (some c) hrest
        refine ⟨c :: l₁, c₀, l₂, by rw [heq]; rfl, ?_, hlt.trans hc, ?_, ?_⟩
        · rw [hstep (b, p)]
          simpa [hc] using hsel
        · intro x hx
          rcases List.mem_cons.mp hx with hxc | hxr
          · subst hxc; exact hlt.le
          · exact hmin x hxr
        · intro x hx
          rcases List.mem_cons.mp hx with hxc | hxr
          · subst hxc; exact hlt
          · exact hfirst x hxr
      · push_neg at hrest
        refine ⟨[], c, rest, rfl, ?_, hc, ?_, by simp⟩
        · rw [hstep (b, p)]
          simpa [hc] using selectLoop_stay score (score c) (some c) rest
            (fun x hx => not_lt.mpr (hrest x hx))
        · intro x hx
          rcases List.mem_cons.mp hx with hxc | hxr
          · subst hxc; exact le_refl _
          · exact hrest x hxr
    · have hr : ∃ x ∈ rest, score x < b := by
        obtain ⟨x, hx, hxb⟩ := h
        rcases List.mem_cons.mp hx with hxc | hxr
        · subst hxc; exact absurd hxb hc
        · exact ⟨x, hxr, hxb⟩
      obtain ⟨l₁, c₀, l₂, heq, hsel, hlt, hmin, hfirst⟩ := ih b p hr
      refine ⟨c :: l₁, c₀, l₂, by rw [heq]; rfl, ?_, hlt, ?_, ?_⟩
      · rw [hstep (b, p)]
        simpa [hc] using hsel
      · intro x hx
        rcases List.mem_cons.mp hx with hxc | hxr
        · subst hxc; exact hlt.le.trans (not_lt.mp hc)
        · exact hmin x hxr
      · intro x hx
        rcases List.mem_cons.mp hx with hxc | hxr
        · subst hxc; exact hlt.trans_le (not_lt.mp hc)
        · exact hfirst x hxr

/-! ## Claims -/

/-- Claim C2: `Predict` on a surrogate model with zero recorded
observations returns exactly `(mean, variance) = (0, 1)`, for every
query point. -/
theorem predict_empty (gp : GP) (x : List ℝ) (h : gp.X = []) :
    Predict gp x = (0, 1) := by
  simp [Predict, h]

/-- Witness for C2: the freshly created model predicts `(0, 1)`. -/
theorem predict_empty_witness : Predict newGaussianProcess [3] = (0, 1) :=
  predict_empty newGaussianProcess [3] rfl

/-- Claim C8: for equal-length vectors and `sigma > 0`, the kernel equals
`exp(-Σ(aᵢ-bᵢ)²/(2·sigma²))`, is strictly positive, is at most `1`, and
equals exactly `1` for identical vectors. -/
theorem rbfKernel_bounds (gp : GP) (a b : List ℝ)
    (hlen : a.length = b.length) (hs : 0 < gp.sigma) :
    RBFKernel gp a b =
      Real.exp (-((List.zipWith (fun ai bi => (ai - bi) ^ 2) a b).sum) /
        (2 * gp.sigma ^ 2)) ∧
    0 < RBFKernel gp a b ∧ RBFKernel gp a b ≤ 1 ∧
    (a = b → RBFKernel gp a b = 1) := by
  have hfun : (fun (ai bi : ℝ) => (ai - bi) ^ 2) =
      fun p q => (p - q) * (p - q) := by
    funext p q; ring
  refine ⟨?_, Real.exp_pos _, ?_, ?_⟩
  · rw [RBFKernel, hfun]
    exact congrArg Real.exp (by ring)
  · rw [RBFKernel]
    apply Real.exp_le_one_iff.mpr
    have hS := zipWith_mulself_sum_nonneg a b
    have hden : 0 < 2 * gp.sigma * gp.sigma := by positivity
    exact div_nonpos_of_nonpos_of_nonneg (by linarith) (le_of_lt hden)
  · intro hab
    subst hab
    simp [RBFKernel, zipWith_mulself_sum_same]

/-- Witness for C8 at concrete inputs. -/
theorem rbfKernel_bounds_witness :
    0 < RBFKernel newGaussianProcess [1, 2] [3, 5] ∧
    RBFKernel newGaussianProcess [1, 2] [3, 5] ≤ 1 ∧
    RBFKernel newGaussianProcess [1, 2] [1, 2] = 1 := by
  have hs : (0 : ℝ) < newGaussianProcess.sigma := by
    norm_num [newGaussianProcess]
  have h1 := rbfKernel_bounds newGaussianProcess [1, 2] [3, 5] rfl hs
  have h2 := rbfKernel_bounds newGaussianProcess [1, 2] [1, 2] rfl hs
  exact ⟨h1.2.1, h1.2.2.1, h2.2.2.2 rfl⟩

/-- Claim C1: for a model with `n ≥ 1` observations, `Predict x` returns
`mean = (1/n)·Σᵢ kᵢ·yᵢ` and `variance = 1 − (1/n)·Σᵢ Σⱼ kᵢ·kⱼ` with
`kᵢ = kernel(x, xᵢ)`, the variance exactly as computed (no clamping). -/
theorem predict_formula (gp : GP) (x : List ℝ)
    (hne : gp.X ≠ []) (hY : gp.Y.length = gp.X.length) :
    Predict gp x =
      ((1 / (gp.X.length : ℝ)) *
         (List.zipWith (fun xi yi => RBFKernel gp x xi * yi) gp.X gp.Y).sum,
       1 - (1 / (gp.X.length : ℝ)) *
         ((gp.X.map (fun xi =>
            (gp.X.map (fun xj => RBFKernel gp x xi * RBFKernel gp x xj)).sum)).sum)) := by
  have hn : ¬ gp.X.length = 0 := fun h => hne (List.length_eq_zero.mp h)
  rw [Predict, if_neg hn]
  simp only [Prod.mk.injEq]
  constructor
  · rw [List.zipWith_map_left, one_div, inv_mul_eq_div]
  · simp only [sum_map_div, List.map_map, Function.comp_def]
    rw [one_div, inv_mul_eq_div]

/-- Witness for C1: two identical observations of cost `5` with
`sigma = 1`; the prediction at the observed point is `(5, -1)`, the
negative variance being returned unclamped. -/
theorem predict_formula_witness :
    Predict ⟨[[0], [0]], [5, 5], 1⟩ [0] = (5, -1) ∧
    (Predict ⟨[[0], [0]], [5, 5], 1⟩ [0]).2 < 0 := by
  have h := predict_formula ⟨[[0], [0]], [5, 5], 1⟩ [0] (by simp) (by simp)
  have hk : RBFKernel ⟨[[0], [0]], [5, 5], 1⟩ [0] [0] = 1 := by
    simp [RBFKernel]
  rw [h]
  norm_num [hk]

/-- Claim C5: when the objective reports failure, the cost recorded in the
surrogate and offered to the best tracker is exactly
`math.MaxFloat64/2 + measured duration`; the step still performs the
normal record-and-update, so the run continues unaffected. -/
theorem failure_penalty {T : Type} (toF : T → ℝ) (st : DriverState T)
    (params : List T) (r : EvalResult) (h : r.failed = true) :
    recordedCost r = maxFloat64 / 2 + r.duration ∧
    evalStep toF st params r =
      { gp := Update st.gp (params.map toF) (maxFloat64 / 2 + r.duration),
        best := updateBest st.best params (maxFloat64 / 2 + r.duration) } := by
  have hc : recordedCost r = maxFloat64 / 2 + r.duration := by
    simp [recordedCost, h]
  exact ⟨hc, by rw [evalStep, hc]⟩

/-- Witness for C5: a failed evaluation of duration `9`. -/
theorem failure_penalty_witness :
    recordedCost ⟨true, 9⟩ = maxFloat64 / 2 + 9 ∧
    evalStep (fun n : ℕ => (n : ℝ)) ⟨newGaussianProcess, ⟨[0], maxFloat64⟩⟩
        [2] ⟨true, 9⟩ =
      { gp := Update newGaussianProcess [((2 : ℕ) : ℝ)] (maxFloat64 / 2 + 9),
        best := updateBest (⟨[0], maxFloat64⟩ : BestState ℕ) [2] (maxFloat64 / 2 + 9) } := by
  have h := failure_penalty (fun n : ℕ => (n : ℝ))
    ⟨newGaussianProcess, ⟨[0], maxFloat64⟩⟩ [2] ⟨true, 9⟩ rfl
  exact ⟨h.1, by simpa using h.2⟩

/-- Claim C6: after every evaluation the stored best cost is the minimum
of its previous value and the new cost; the best parameters are replaced
only when the new cost is strictly lower; consequently the best cost is
monotonically non-increasing across any sequence of evaluations and
across both driver phases. -/
theorem updateBest_monotone {T : Type} (st : BestState T) (params : List T) (t : ℝ) :
    (updateBest st params t).bestTime = min st.bestTime t ∧
    (updateBest st params t).bestTime ≤ st.bestTime ∧
    (t < st.bestTime → (updateBest st params t).bestParams = goCopy st.bestParams params) ∧
    (¬ t < st.bestTime → updateBest st params t = st) ∧
    (∀ evals : List (List T × ℝ),
      (evals.foldl (fun s pr => updateBest s pr.1 pr.2) st).bestTime ≤ st.bestTime) ∧
    (∀ (toF : T → ℝ) (ds : DriverState T) (draws : List (List T × EvalResult)),
      (phaseA toF ds draws).best.bestTime ≤ ds.best.bestTime) ∧
    (∀ (toF : T → ℝ) (acqF : ℝ → ℝ → AcquisitionParams → ℝ)
       (acqP : AcquisitionParams) (ds : DriverState T)
       (rounds : List (List (List T) × EvalResult)),
      (phaseB toF acqF acqP ds rounds).best.bestTime ≤ ds.best.bestTime) := by
  refine ⟨?_, updateBest_bestTime_le st params t, ?_, ?_,
    fun evals => foldl_updateBest_le evals st,
    fun toF ds draws => phaseA_bestTime_le toF draws ds,
    fun toF acqF acqP ds rounds => phaseB_bestTime_le toF acqF acqP rounds ds⟩
  · by_cases h : t < st.bestTime
    · rw [updateBest, if_pos h]
      exact (min_eq_right h.le).symm
    · rw [updateBest, if_neg h]
      exact (min_eq_left (not_lt.mp h)).symm
  · intro h
    rw [updateBest, if_pos h]
  · intro h
    rw [updateBest, if_neg h]

/-- Witness for C6: a strictly better evaluation updates both fields. -/
theorem updateBest_monotone_witness :
    (updateBest (⟨[0], 5⟩ : BestState ℕ) [1] 3).bestTime = min 5 3 ∧
    (updateBest (⟨[0], 5⟩ : BestState ℕ) [1] 3).bestParams = goCopy [0] [1] := by
  have h := updateBest_monotone (⟨[0], 5⟩ : BestState ℕ) [1] 3
  exact ⟨h.1, h.2.2.1 (by norm_num)⟩

/-- Claim C7: the vector returned by `OptimizeHyperparameters` has length
exactly `d`, the number of declared parameter ranges, for every oracle
(any numbers of samples, iterations, candidates, successes, failures). -/
theorem optimize_result_length {T : Type} (toF : T → ℝ) (zeroT : T)
    (acqF : ℝ → ℝ → AcquisitionParams → ℝ) (acqP : AcquisitionParams)
    (d : ℕ) (oracle : RunOracle T) :
    (OptimizeHyperparameters toF zeroT acqF acqP d oracle).length = d := by
  rw [OptimizeHyperparameters]
  rw [phaseB_length toF acqF acqP oracle.phaseBRounds]
  rw [phaseA_length toF oracle.phaseADraws]
  simp

/-- Claim C3: in a Phase B iteration the drawn candidates are each scored
by the configured acquisition function on the surrogate's prediction, and
the objective is evaluated exactly once, on the candidate with the
minimal acquisition score; among tied candidates the first one drawn
wins (every candidate drawn before the winner scores strictly higher). -/
theorem phaseB_first_argmin {T : Type} (toF : T → ℝ)
    (acqF : ℝ → ℝ → AcquisitionParams → ℝ) (acqP : AcquisitionParams)
    (st : DriverState T) (cands : List (List T)) (r : EvalResult)
    (h : ∃ c ∈ cands, phaseBScore toF acqF acqP st c < maxFloat64) :
    ∃ l₁ c₀ l₂, cands = l₁ ++ c₀ :: l₂ ∧
      phaseBSelect toF acqF acqP st cands = some c₀ ∧
      phaseBRound toF acqF acqP st (cands, r) = evalStep toF st c₀ r ∧
      (∀ c ∈ cands,
        phaseBScore toF acqF acqP st c₀ ≤ phaseBScore toF acqF acqP st c) ∧
      (∀ c ∈ l₁,
        phaseBScore toF acqF acqP st c₀ < phaseBScore toF acqF acqP st c) := by
  obtain ⟨l₁, c₀, l₂, heq, hsel, hlt, hmin, hfirst⟩ :=
    selectLoop_first_argmin (phaseBScore toF acqF acqP st) cands maxFloat64 none h
  have hsel2 : phaseBSelect toF acqF acqP st cands = some c₀ := by
    rw [phaseBSelect, hsel]
  refine ⟨l₁, c₀, l₂, heq, hsel2, ?_, hmin, hfirst⟩
  simp [phaseBRound, hsel2]

/-- Witness for C3: an empty surrogate scores every candidate `0`, so the
first candidate wins. -/
theorem phaseB_first_argmin_witness :
    ∃ l₁ c₀ l₂, ([[1], [2]] : List (List ℝ)) = l₁ ++ c₀ :: l₂ ∧
      phaseBSelect id (fun m _ _ => m) ⟨2, 1 / 100, maxFloat64, none⟩
        ⟨newGaussianProcess, ⟨[0], maxFloat64⟩⟩ [[1], [2]] = some c₀ ∧
      phaseBRound id (fun m _ _ => m) ⟨2, 1 / 100, maxFloat64, none⟩
        ⟨newGaussianProcess, ⟨[0], maxFloat64⟩⟩ ([[1], [2]], ⟨false, 7⟩) =
        evalStep id ⟨newGaussianProcess, ⟨[0], maxFloat64⟩⟩ c₀ ⟨false, 7⟩ ∧
      (∀ c ∈ ([[1], [2]] : List (List ℝ)),
        phaseBScore id (fun m _ _ => m) ⟨2, 1 / 100, maxFloat64, none⟩
          ⟨newGaussianProcess, ⟨[0], maxFloat64⟩⟩ c₀ ≤
        phaseBScore id (fun m _ _ => m) ⟨2, 1 / 100, maxFloat64, none⟩
          ⟨newGaussianProcess, ⟨[0], maxFloat64⟩⟩ c) ∧
      (∀ c ∈ l₁,
        phaseBScore id (fun m _ _ => m) ⟨2, 1 / 100, maxFloat64, none⟩
          ⟨newGaussianProcess, ⟨[0], maxFloat64⟩⟩ c₀ <
        phaseBScore id (fun m _ _ => m) ⟨2, 1 / 100, maxFloat64, none⟩
          ⟨newGaussianProcess, ⟨[0], maxFloat64⟩⟩ c) := by
  apply phaseB_first_argmin id (fun m _ _ => m) ⟨2, 1 / 100, maxFloat64, none⟩
    ⟨newGaussianProcess, ⟨[0], maxFloat64⟩⟩ [[1], [2]] ⟨false, 7⟩
  refine ⟨[1], by simp, ?_⟩
  simpa [phaseBScore, Predict, newGaussianProcess] using maxFloat64_pos

/-- Counterexample to C4 as stated: in a continuous dimension with the
inclusive range `[0, 1]`, the value `Max = 1` can never be drawn, because
`rng.Float64()` lies in `[0, 1)`. -/
theorem float_max_not_drawable : ¬ canDrawFloat 0 1 1 := by
  rintro ⟨u, h0, h1, he⟩
  simp at he
  linarith

/-- Claim C4 (amended): integer dimensions reach exactly the inclusive
integer interval `[Min, Max]`; continuous dimensions reach exactly the
half-open interval `[Min, Max)` — `Max` itself is never drawn when
`Min < Max`. -/
theorem sample_range_characterization :
    (∀ minV maxV v : ℤ, minV ≤ maxV →
      (canDrawInt minV maxV v ↔ minV ≤ v ∧ v ≤ maxV)) ∧
    (∀ minV maxV v : ℝ, minV < maxV →
      (canDrawFloat minV maxV v ↔ minV ≤ v ∧ v < maxV)) := by
  constructor
  · intro minV maxV v hmm
    constructor
    · rintro ⟨r, h0, hr, he⟩
      omega
    · rintro ⟨h1, h2⟩
      exact ⟨v - minV, by omega, by omega, by omega⟩
  · intro minV maxV v hmm
    have hne : maxV - minV ≠ 0 := ne_of_gt (by linarith)
    constructor
    · rintro ⟨u, h0, h1, he⟩
      constructor
      · nlinarith
      · nlinarith
    · rintro ⟨h1, h2⟩
      refine ⟨(v - minV) / (maxV - minV), ?_, ?_, ?_⟩
      · exact div_nonneg (by linarith) (by linarith)
      · rw [div_lt_one (by linarith)]; linarith
      · rw [div_mul_cancel₀ _ hne]; ring

/-- Witness for the amended C4: with range `[0, 2]`, the integer sampler
reaches the endpoint `2`; the continuous sampler reaches `1` but not the
endpoint `2`. -/
theorem sample_range_characterization_witness :
    canDrawInt 0 2 2 ∧ canDrawFloat 0 2 1 ∧ ¬ canDrawFloat 0 2 2 := by
  have h := sample_range_characterization
  refine ⟨(h.1 0 2 2 (by norm_num)).mpr (by norm_num),
    (h.2 0 2 1 (by norm_num)).mpr (by norm_num), fun hc => ?_⟩
  have h2 := (h.2 0 2 2 (by norm_num)).mp hc
  norm_num at h2

/-- Counterexample to C9 as stated: with a nil random source, Thompson
Sampling hits the implicit nil-pointer fault; it does not produce the
explicit error the claim describes. -/
theorem thompson_nil_counterexample :
    ThompsonSampling 0 1 ⟨2, 1 / 100, 0, none⟩ = TSOutcome.implicitFault ∧
    ThompsonSampling 0 1 ⟨2, 1 / 100, 0, none⟩ ≠ TSOutcome.explicitError :=
  ⟨rfl, by simp [ThompsonSampling]⟩

/-- Claim C9 (amended): with a missing (nil) random source, Thompson
Sampling always crashes with the implicit nil-pointer fault — it never
returns an explicit error and never substitutes a default generator. -/
theorem thompson_nil_fault (mean variance beta xi bsf : ℝ) :
    ThompsonSampling mean variance ⟨beta, xi, bsf, none⟩ =
      TSOutcome.implicitFault :=
  rfl

/-- Claim C10: for an admitted element type outside
`{int, int32, int64, float32, float64}`, the sampling switch matches no
case, so every sampled parameter keeps the zero value `0`, regardless of
the declared `Min`/`Max` and of the random draws. -/
theorem unhandled_type_zero (t : GoNumType) (h : handledBySwitch t = false) :
    (∀ minV maxV r u : ℝ, sampleParam t minV maxV r u = 0) ∧
    (∀ (hypers draws : List (ℝ × ℝ)) (v : ℝ),
      v ∈ safeRandomParams t hypers draws → v = 0) := by
  have hs : ∀ minV maxV r u : ℝ, sampleParam t minV maxV r u = 0 := by
    intro minV maxV r u
    cases t <;> first | rfl | (exfalso; simp [handledBySwitch] at h)
  refine ⟨hs, ?_⟩
  intro hypers draws v hv
  rw [safeRandomParams] at hv
  obtain ⟨x, _, hxv⟩ := List.mem_map.mp hv
  rw [← hxv]
  exact hs _ _ _ _

/-- Witness for C10: an `int8` dimension with range `[5, 9]` samples `0`,
whatever the draws. -/
theorem unhandled_type_zero_witness :
    sampleParam GoNumType.goInt8 5 9 3 2 = 0 :=
  (unhandled_type_zero GoNumType.goInt8 rfl).1 5 9 3 2

end HO
